import Mathlib

/-!
Verification of the `sudoers` Ansible module (src/system/sudoers.py).

The module manages single-line privilege-grant entries in a sudoers file,
transactionally: it copies the live file to a staged `.tmp` artifact (which
doubles as a lock), edits the staged copy, validates it with `visudo -c -f`,
and promotes it over the live file with `shutil.move`, rolling back
(`os.remove` of the staged copy) on any failure.

File contents are modelled as `List Char` (raw bytes of text); the file
system visible to the module is the pair of the live path's content and the
staged path's content (`FS`).  Python's `re.match` is modelled for exactly
the pattern language the module builds: literal characters, backslash
escapes of non-alphanumeric characters, `.`, a leading `^` (redundant under
`re.match`) and a trailing `$`; any other regex metacharacter makes the
model decline to match (such patterns never arise in the theorems below,
whose hypotheses restrict the interpolated fields).
-/

namespace SudoersMod

/-- Whether an entry is for a user or a group (`kind` in `Sudoers.__init__`). -/
inductive Kind where
  | user : Kind
  | group : Kind
deriving DecidableEq

/-- The grant data handed to `Sudoers.__init__` (src/system/sudoers.py:111-118):
name, kind, host, password_required, commands.  `cfg_file` is modelled
separately as a `Bool` flag, since only its presence (not its text) affects
behaviour in the file model. -/
structure GrantSpec where
  name : List Char
  kind : Kind
  host : List Char
  password_required : Bool
  commands : List Char
deriving DecidableEq

/-- `Sudoers.get_large_pattern` (src/system/sudoers.py:144-148):
`'^%s' % name` for a user, `'^%%%s' % name` (i.e. `^%name`) for a group. -/
def get_large_pattern (s : GrantSpec) : List Char :=
  match s.kind with
  | Kind.user => '^' :: s.name
  | Kind.group => '^' :: '%' :: s.name

/-- `Sudoers.get_strict_pattern` (src/system/sudoers.py:150-164):
`^<ident> <host>=\(ALL\)[ NOPASSWD:] <commands>$`. -/
def get_strict_pattern (s : GrantSpec) : List Char :=
  (match s.kind with
   | Kind.user => '^' :: s.name
   | Kind.group => '^' :: '%' :: s.name)
  ++ (' ' :: (s.host ++ ['=']))
  ++ "\\(ALL\\)".data
  ++ (if s.password_required then [] else " NOPASSWD:".data)
  ++ (' ' :: (s.commands ++ ['$']))

/-- The entry text built by `Sudoers.add_user` (src/system/sudoers.py:213-225)
before the final newline: `<ident> <host>=(ALL)[ NOPASSWD:] <commands>`. -/
def entryBody (s : GrantSpec) : List Char :=
  (match s.kind with
   | Kind.user => s.name
   | Kind.group => '%' :: s.name)
  ++ (' ' :: (s.host ++ "=(ALL)".data))
  ++ (if s.password_required then [] else " NOPASSWD:".data)
  ++ (' ' :: s.commands)

/-- The full line written by `Sudoers.add_user`, `'... %s\n' % commands`. -/
def renderEntry (s : GrantSpec) : List Char :=
  entryBody s ++ ['\n']

/-- The rendered identity of the principal: bare name for a user,
`%`-prefixed name for a group. -/
def identOf (s : GrantSpec) : List Char :=
  match s.kind with
  | Kind.user => s.name
  | Kind.group => '%' :: s.name

/-- Characters removed at both ends by Python's `str.strip()`. -/
def isPySpace (c : Char) : Bool :=
  c = ' ' || c = '\t' || c = '\n' || c = '\r' || c = '\x0b' || c = '\x0c'

/-- Python `str.strip()`: drop leading and trailing whitespace. -/
def strip (l : List Char) : List Char :=
  ((l.dropWhile isPySpace).reverse.dropWhile isPySpace).reverse

/-- One element of a compiled pattern in the fragment of Python `re` the
module uses: a literal character, `.`, or the `$` end anchor. -/
inductive RTok where
  | lit : Char → RTok
  | dot : RTok
  | endAnchor : RTok
deriving DecidableEq

/-- Regex metacharacters whose semantics this model does not cover (their
appearance makes `parseTokens` fail, hence `reMatch` return `false`). -/
def specialChar (c : Char) : Bool :=
  c = '*' || c = '+' || c = '?' || c = '(' || c = ')' || c = '[' || c = ']' ||
  c = '\x7b' || c = '\x7d' || c = '|' || c = '^'

/-- A character the model treats as matching itself literally. -/
def litChar (c : Char) : Bool :=
  !(c = '\\' || c = '.' || c = '$' || specialChar c)

/-- Compile a pattern (after the leading `^` has been removed) into tokens.
Backslash escapes of non-alphanumeric characters are literals (as in Python
`re`); escapes of alphanumerics would be character classes, which the model
declines to handle. -/
def parseTokens : List Char → Option (List RTok)
  | [] => some []
  | c :: rest =>
    if c = '\\' then
      match rest with
      | [] => none
      | d :: rest2 =>
        if d.isAlphanum then none
        else (parseTokens rest2).map (fun ts => RTok.lit d :: ts)
    else if c = '.' then (parseTokens rest).map (fun ts => RTok.dot :: ts)
    else if c = '$' then (parseTokens rest).map (fun ts => RTok.endAnchor :: ts)
    else if specialChar c then none
    else (parseTokens rest).map (fun ts => RTok.lit c :: ts)

/-- Run compiled tokens against a string, anchored at the start (as
`re.match` is).  `$` matches at the end of the string or before a trailing
newline, exactly as in Python without `re.MULTILINE`. -/
def matchToks : List RTok → List Char → Bool
  | [], _ => true
  | RTok.endAnchor :: ts, s => (s.isEmpty || s == ['\n']) && matchToks ts s
  | RTok.lit _ :: _, [] => false
  | RTok.dot :: _, [] => false
  | RTok.lit c :: ts, d :: s => c == d && matchToks ts s
  | RTok.dot :: ts, d :: s => !(d == '\n') && matchToks ts s

/-- A leading `^` is redundant under `re.match` (which anchors at the start
anyway); drop it before compiling. -/
def stripCaret : List Char → List Char
  | '^' :: rest => rest
  | p => p

/-- Model of `re.match(pattern, line)` returning whether a match exists, for
the pattern fragment described above. -/
def reMatch (pat line : List Char) : Bool :=
  match parseTokens (stripCaret pat) with
  | some ts => matchToks ts line
  | none => false

/-- Python `file.readlines()`: split into lines, each keeping its trailing
`'\n'`; a final fragment without a terminator is returned as-is.
`splitAux acc l` carries the (reversed-free) partial current line `acc`. -/
def splitAux (acc : List Char) : List Char → List (List Char)
  | [] => if acc = [] then [] else [acc]
  | c :: rest =>
    if c = '\n' then (acc ++ ['\n']) :: splitAux [] rest
    else splitAux (acc ++ [c]) rest

/-- The list of lines of a file content, as `readlines` produces them. -/
def readlinesContent (content : List Char) : List (List Char) :=
  splitAux [] content

/-- One iteration of the classification loop in `Sudoers.is_listed`
(src/system/sudoers.py:189-200): skip a line whose stripped form starts
with `#`; a strict match sets both flags, otherwise a large-pattern match
sets `listed` only.  Both flags are sticky. -/
def classifyStep (s : GrantSpec) (acc : Bool × Bool) (line : List Char) :
    Bool × Bool :=
  let stripped := strip line
  if stripped.head? = some '#' then acc
  else if reMatch (get_strict_pattern s) stripped then (true, true)
  else if reMatch (get_large_pattern s) stripped then (true, acc.2)
  else acc

/-- The full classification loop over the file's lines, starting from
`(listed, listed_exactly) = (False, False)`. -/
def classifyLines (s : GrantSpec) (lines : List (List Char)) : Bool × Bool :=
  lines.foldl (classifyStep s) (false, false)

/-- The part of the file system the module touches: the content of the live
configuration file (`sudoers_path`, or the `sudoers.d` fragment when
`cfg_file` is set) and of the staged artifact (`sudoers_tmp_path`).
`none` means the file does not exist. -/
structure FS where
  live : Option (List Char)
  tmp : Option (List Char)
deriving DecidableEq

/-- A Python exception as `main` observes it: an `IOError`/`OSError` (caught
specially around `lock`) or any other `Exception`, with the text `str(ex)`
would produce. -/
inductive Err where
  | io : List Char → Err
  | exc : List Char → Err
deriving DecidableEq

instance {ε α : Type} [DecidableEq ε] [DecidableEq α] :
    DecidableEq (Except ε α)
  | Except.error x, Except.error y =>
    if h : x = y then isTrue (by rw [h])
    else isFalse (fun hc => h (Except.error.inj hc))
  | Except.error _, Except.ok _ => isFalse (fun hc => Except.noConfusion hc)
  | Except.ok _, Except.error _ => isFalse (fun hc => Except.noConfusion hc)
  | Except.ok x, Except.ok y =>
    if h : x = y then isTrue (by rw [h])
    else isFalse (fun hc => h (Except.ok.inj hc))

/-- `str(ex)` as used in `main`'s error reports. -/
def errStr : Err → List Char
  | Err.io m => m
  | Err.exc m => m

/-- Message of `Exception('invalid syntax detected')` in `Sudoers.commit`. -/
def invalidSyntaxMsg : List Char := "invalid syntax detected".data

/-- Diagnostic text of the `IOError` raised by `open(path, 'r')` on a
missing file (operating-system supplied; the exact text is not in the
source, only that the exception carries it). -/
def openReadFailMsg : List Char := "No such file or directory".data

/-- Diagnostic text of the `OSError` raised by `os.remove` on a missing
file (operating-system supplied). -/
def removeFailMsg : List Char := "No such file or directory".data

/-- Diagnostic of the `shutil.copyfile` `IOError` when the source is
missing (operating-system supplied). -/
def copyFailMsg : List Char := "No such file or directory".data

/-- `Sudoers.is_listed` line 183 executes `raise('%s is missing' % ...)`;
raising a `str` is a `TypeError` in Python 2.6+, whose text is this
interpreter-supplied message. -/
def cfgRaiseMsg : List Char :=
  "exceptions must be old-style classes or derived from BaseException, not str".data

/-- `main`'s message when `lock` raises `IOError`
(src/system/sudoers.py:283). -/
def lockedByMsg : List Char := "sudoers is locked by another user".data

/-- `'commit failed: %s'` (src/system/sudoers.py:294). -/
def commitFailedPre : List Char := "commit failed: ".data

/-- `'sudoers file is missing, detailed error: %s'`
(src/system/sudoers.py:277). -/
def sudoersMissingPre : List Char := "sudoers file is missing, detailed error: ".data

/-- `Sudoers.lock` (src/system/sudoers.py:128-133): raise `IOError()` if the
staged artifact exists, else copy the live file to it (`shutil.copyfile`
raises `IOError` if the live file is missing).  The `os.chmod` has no
observable effect in this model. -/
def lock (fs : FS) : Except Err FS :=
  if fs.tmp.isSome then Except.error (Err.io [])
  else
    match fs.live with
    | none => Except.error (Err.io copyFailMsg)
    | some c => Except.ok { fs with tmp := some c }

/-- `Sudoers.rollback` (src/system/sudoers.py:135-136): `os.remove` of the
staged artifact; raises `OSError` if it does not exist. -/
def rollback (fs : FS) : Except Err FS :=
  match fs.tmp with
  | none => Except.error (Err.io removeFailMsg)
  | some _ => Except.ok { fs with tmp := none }

/-- `Sudoers.commit` (src/system/sudoers.py:138-142): run
`visudo -c -f <staged>` (modelled by the oracle `valid` applied to the
staged content; `os.system` exposes only the exit status); on non-zero
raise `Exception('invalid syntax detected')`, else `shutil.move` the staged
artifact over the live file.  `visudo` on a missing staged path also exits
non-zero. -/
def commit (valid : List Char → Bool) (fs : FS) : Except Err FS :=
  match fs.tmp with
  | none => Except.error (Err.exc invalidSyntaxMsg)
  | some t =>
    if valid t then Except.ok { live := some t, tmp := none }
    else Except.error (Err.exc invalidSyntaxMsg)

/-- `Sudoers.readlines` (src/system/sudoers.py:166-170): open the live file
for reading (raising `IOError` if it cannot be opened) and split it into
lines. -/
def readlines (fs : FS) : Except Err (List (List Char)) :=
  match fs.live with
  | none => Except.error (Err.io openReadFailMsg)
  | some c => Except.ok (readlinesContent c)

/-- `Sudoers.create_cfg_file` (src/system/sudoers.py:172-174):
`open(self.sudoers_path, 'w')` — creates the live file if absent and
truncates it to empty if present. -/
def create_cfg_file (fs : FS) : FS :=
  { fs with live := some [] }

/-- `Sudoers.is_listed` (src/system/sudoers.py:176-200).  When `cfg_file`
is set: if the staged artifact does not exist, `create_cfg_file` is called
(truncating/creating the live fragment); otherwise a `str` is raised.
Then the live file is read and classified.  Returns the flags together
with the (possibly mutated) file system. -/
def is_listed (s : GrantSpec) (cfg : Bool) (fs : FS) :
    Except Err ((Bool × Bool) × FS) :=
  if cfg then
    if fs.tmp.isSome then Except.error (Err.exc cfgRaiseMsg)
    else
      let fs2 := create_cfg_file fs
      match readlines fs2 with
      | Except.error e => Except.error e
      | Except.ok lines => Except.ok (classifyLines s lines, fs2)
  else
    match readlines fs with
    | Except.error e => Except.error e
    | Except.ok lines => Except.ok (classifyLines s lines, fs)

/-- `Sudoers.remove_user` (src/system/sudoers.py:202-211): read the live
file and write to the staged artifact (truncating it) every line whose
stripped form does not match the large pattern. -/
def remove_user (s : GrantSpec) (fs : FS) : Except Err FS :=
  match fs.live with
  | none => Except.error (Err.io openReadFailMsg)
  | some c =>
    Except.ok { fs with tmp := some (List.flatten ((readlinesContent c).filter
        (fun line => !reMatch (get_large_pattern s) (strip line)))) }

/-- `Sudoers.add_user` (src/system/sudoers.py:213-227): open the staged
artifact in append mode (creating it if absent) and write the rendered
entry. -/
def add_user (s : GrantSpec) (fs : FS) : Except Err FS :=
  Except.ok { fs with tmp := some (fs.tmp.getD [] ++ renderEntry s) }

/-- The observable result of `main`: `module.exit_json` with the `changed`
flag, `module.fail_json` with a message, or an exception escaping `main`
(possible only if `rollback` itself raised inside an `except` block). -/
inductive Outcome where
  | exitJson : Bool → Outcome
  | failJson : List Char → Outcome
  | uncaught : Err → Outcome
deriving DecidableEq

/-- Run file-system operations in sequence, stopping at the first
exception; returns the exception (if any) and the file system at that
point — the state the `except` handler in `main` sees. -/
def seqOps : List (FS → Except Err FS) → FS → Option Err × FS
  | [], fs => (none, fs)
  | op :: ops, fs =>
    match op fs with
    | Except.error e => (some e, fs)
    | Except.ok fs2 => seqOps ops fs2

/-- One transaction branch of `main` (src/system/sudoers.py:279-329):
`lock` (an `IOError` is reported as the lock message), then the staged
edits followed by `commit`, reporting `changed=True` on success; on any
exception, `rollback` and report `commit failed: str(ex)`.
`module.backup_local` touches neither modelled file and is omitted. -/
def transact (valid : List Char → Bool) (ops : List (FS → Except Err FS))
    (fs : FS) : Outcome × FS :=
  match lock fs with
  | Except.error _ => (Outcome.failJson lockedByMsg, fs)
  | Except.ok fs1 =>
    match seqOps (ops ++ [commit valid]) fs1 with
    | (none, fs2) => (Outcome.exitJson true, fs2)
    | (some e, fs2) =>
      match rollback fs2 with
      | Except.ok fs3 => (Outcome.failJson (commitFailedPre ++ errStr e), fs3)
      | Except.error e2 => (Outcome.uncaught e2, fs2)

/-- `main` (src/system/sudoers.py:241-331): classify, pick the branch from
`(listed, listed_exactly, state)`, and run the corresponding transaction;
the two no-op cases exit with `changed=False`. -/
def mainRun (s : GrantSpec) (cfg : Bool) (statePresent : Bool)
    (valid : List Char → Bool) (fs : FS) : Outcome × FS :=
  match is_listed s cfg fs with
  | Except.error e => (Outcome.failJson (sudoersMissingPre ++ errStr e), fs)
  | Except.ok ((listed, exactly), fs1) =>
    if listed && !statePresent then
      transact valid [remove_user s] fs1
    else if listed && !exactly && statePresent then
      transact valid [remove_user s, add_user s] fs1
    else if !listed && statePresent then
      transact valid [add_user s] fs1
    else (Outcome.exitJson false, fs1)

/-- The staged content produced by the replace branch (`remove_user` then
`add_user`) starting from live content `c`. -/
def stagedReplace (s : GrantSpec) (c : List Char) : List Char :=
  List.flatten ((readlinesContent c).filter
    (fun line => !reMatch (get_large_pattern s) (strip line))) ++ renderEntry s

/-- The staged content handed to the validator in each transaction branch
of `main`: remove (entry present, state absent), replace (present but not
exact, state present), or add (absent, state present).  `lock` first
copies the live content `c` to the staged path; `remove_user` then
truncates it to the non-matching lines, while `add_user` appends the
rendered entry. -/
def stagedFor (s : GrantSpec) (listed exactly statePresent : Bool)
    (c : List Char) : List Char :=
  if listed && !statePresent then
    List.flatten ((readlinesContent c).filter
      (fun line => !reMatch (get_large_pattern s) (strip line)))
  else if listed && !exactly && statePresent then stagedReplace s c
  else c ++ renderEntry s

/-- `main` with the external validator's full observable behaviour (exit
status and diagnostic text): `os.system` exposes only the status to the
module, the diagnostic goes to the terminal. -/
def mainRunWithDiag (s : GrantSpec) (cfg : Bool) (statePresent : Bool)
    (validator : List Char → Bool × List Char) (fs : FS) : Outcome × FS :=
  mainRun s cfg statePresent (fun t => (validator t).1) fs

/-- Whether the decision table of `main` starts a transaction (as opposed
to the two no-op branches). -/
def needsTransaction (listed exactly statePresent : Bool) : Bool :=
  (listed && !statePresent) || (listed && !exactly && statePresent) ||
    (!listed && statePresent)

/-- Characters for which interpolation into the module's regexes is safe:
alphanumerics and a few path-ish symbols.  None of them is a regex
metacharacter, whitespace, `#`, `%`, `=` or `:`. -/
def plainChar (c : Char) : Bool :=
  c.isAlphanum || c = '_' || c = '-' || c = '/'

/-- A spec whose `name`, `host` and `commands` consist of plain characters
and are nonempty. -/
def plainSpec (s : GrantSpec) : Prop :=
  (∀ c ∈ s.name, plainChar c = true) ∧ (∀ c ∈ s.host, plainChar c = true) ∧
  (∀ c ∈ s.commands, plainChar c = true) ∧
  s.name ≠ [] ∧ s.host ≠ [] ∧ s.commands ≠ []

instance plainSpecDecidable (s : GrantSpec) : Decidable (plainSpec s) :=
  decidable_of_iff ((∀ c ∈ s.name, plainChar c = true) ∧
    (∀ c ∈ s.host, plainChar c = true) ∧
    (∀ c ∈ s.commands, plainChar c = true) ∧
    s.name ≠ [] ∧ s.host ≠ [] ∧ s.commands ≠ []) Iff.rfl

theorem plain_ne {c : Char} (h : plainChar c = true) {d : Char}
    (hd : plainChar d = false) : c ≠ d := by
  intro hc
  rw [hc, hd] at h
  exact absurd h (by decide)

theorem plain_lit {c : Char} (h : plainChar c = true) : litChar c = true := by
  simp only [litChar, specialChar, Bool.not_eq_true', Bool.or_eq_false_iff,
    decide_eq_false_iff_not, and_assoc]
  exact ⟨plain_ne h (by decide), plain_ne h (by decide), plain_ne h (by decide),
    plain_ne h (by decide), plain_ne h (by decide), plain_ne h (by decide),
    plain_ne h (by decide), plain_ne h (by decide), plain_ne h (by decide),
    plain_ne h (by decide), plain_ne h (by decide), plain_ne h (by decide),
    plain_ne h (by decide), plain_ne h (by decide)⟩

theorem plain_not_space {c : Char} (h : plainChar c = true) :
    isPySpace c = false := by
  simp only [isPySpace, Bool.or_eq_false_iff, decide_eq_false_iff_not,
    and_assoc]
  exact ⟨plain_ne h (by decide), plain_ne h (by decide), plain_ne h (by decide),
    plain_ne h (by decide), plain_ne h (by decide), plain_ne h (by decide)⟩

theorem parseTokens_cons_lit {c : Char} (rest : List Char)
    (h : litChar c = true) :
    parseTokens (c :: rest) =
      (parseTokens rest).map (fun ts => RTok.lit c :: ts) := by
  simp only [litChar, Bool.not_eq_true', Bool.or_eq_false_iff,
    decide_eq_false_iff_not, and_assoc] at h
  obtain ⟨h1, h2, h3, h4⟩ := h
  rw [parseTokens.eq_def]
  simp [h1, h2, h3, h4]

theorem parseTokens_append_lit {xs : List Char} (ys : List Char)
    (h : ∀ c ∈ xs, litChar c = true) :
    parseTokens (xs ++ ys) =
      (parseTokens ys).map (fun ts => xs.map RTok.lit ++ ts) := by
  induction xs with
  | nil =>
    rw [List.nil_append]
    cases parseTokens ys <;> simp
  | cons c xs ih =>
    rw [List.cons_append, parseTokens_cons_lit _ (h c (by simp)),
      ih (fun d hd => h d (by simp [hd]))]
    cases parseTokens ys <;> simp

theorem parseTokens_escParens (r : List Char) :
    parseTokens ('\\' :: '(' :: 'A' :: 'L' :: 'L' :: '\\' :: ')' :: r) =
      (parseTokens r).map (fun ts => RTok.lit '(' :: RTok.lit 'A' ::
        RTok.lit 'L' :: RTok.lit 'L' :: RTok.lit ')' :: ts) := by
  have h1 : ('(' : Char).isAlphanum = false := by decide
  have h2 : (')' : Char).isAlphanum = false := by decide
  have h3 : litChar 'A' = true := by decide
  have h4 : litChar 'L' = true := by decide
  rw [parseTokens, if_pos rfl]
  simp only [h1, Bool.false_eq_true, if_false]
  rw [parseTokens_cons_lit _ h3, parseTokens_cons_lit _ h4,
    parseTokens_cons_lit _ h4, parseTokens, if_pos rfl]
  simp only [h2, Bool.false_eq_true, if_false]
  cases parseTokens r <;> simp

theorem matchToks_lits (xs : List Char) : ∀ ys : List Char,
    (matchToks (xs.map RTok.lit) ys = true ↔ ∃ r, ys = xs ++ r) := by
  induction xs with
  | nil => intro ys; simp [matchToks]
  | cons c xs ih =>
    intro ys
    cases ys with
    | nil =>
      simp only [List.map_cons, matchToks, Bool.false_eq_true, false_iff]
      rintro ⟨r, h⟩
      simp at h
    | cons d ys =>
      simp only [List.map_cons, matchToks, Bool.and_eq_true, beq_iff_eq, ih,
        List.cons_append]
      constructor
      · rintro ⟨rfl, r, rfl⟩
        exact ⟨r, rfl⟩
      · rintro ⟨r, h⟩
        obtain ⟨h1, h2⟩ := List.cons.inj h
        exact ⟨h1.symm, r, h2⟩

theorem matchToks_lits_end (xs : List Char) : ∀ ys : List Char,
    (matchToks (xs.map RTok.lit ++ [RTok.endAnchor]) ys = true ↔
      (ys = xs ∨ ys = xs ++ ['\n'])) := by
  induction xs with
  | nil =>
    intro ys
    cases ys with
    | nil => simp [matchToks]
    | cons d ys => simp [matchToks]
  | cons c xs ih =>
    intro ys
    cases ys with
    | nil =>
      simp only [List.map_cons, List.cons_append, matchToks,
        Bool.false_eq_true, false_iff, not_or]
      constructor <;> simp
    | cons d ys =>
      simp only [List.map_cons, List.cons_append, matchToks, Bool.and_eq_true,
        beq_iff_eq, List.append_eq, ih]
      constructor
      · rintro ⟨rfl, h | h⟩
        · exact Or.inl (by rw [h])
        · exact Or.inr (by rw [h])
      · rintro (h | h)
        · obtain ⟨h1, h2⟩ := List.cons.inj h
          exact ⟨h1.symm, Or.inl h2⟩
        · obtain ⟨h1, h2⟩ := List.cons.inj h
          exact ⟨h1.symm, Or.inr h2⟩

theorem stripCaret_caret (r : List Char) : stripCaret ('^' :: r) = r := rfl

theorem get_large_pattern_eq (s : GrantSpec) :
    get_large_pattern s = '^' :: identOf s := by
  cases h : s.kind <;> simp [get_large_pattern, identOf, h]

theorem get_strict_pattern_eq (s : GrantSpec) :
    get_strict_pattern s = '^' :: (identOf s ++ ' ' :: (s.host ++ '=' ::
      ('\\' :: '(' :: 'A' :: 'L' :: 'L' :: '\\' :: ')' ::
        ((if s.password_required then [] else " NOPASSWD:".data) ++
          ' ' :: (s.commands ++ ['$']))))) := by
  have hd : "\\(ALL\\)".data = ['\\', '(', 'A', 'L', 'L', '\\', ')'] := by
    decide
  cases h : s.kind <;>
    simp [get_strict_pattern, identOf, h, hd, List.append_assoc]

theorem entryBody_eq (s : GrantSpec) :
    entryBody s = identOf s ++ ' ' :: (s.host ++ '=' ::
      ('(' :: 'A' :: 'L' :: 'L' :: ')' ::
        ((if s.password_required then [] else " NOPASSWD:".data) ++
          ' ' :: s.commands))) := by
  have hd : "=(ALL)".data = ['=', '(', 'A', 'L', 'L', ')'] := by decide
  cases h : s.kind <;>
    simp [entryBody, identOf, h, hd, List.append_assoc]

theorem identOf_lit {s : GrantSpec} (h : ∀ c ∈ s.name, plainChar c = true) :
    ∀ c ∈ identOf s, litChar c = true := by
  intro c hc
  cases hk : s.kind <;> rw [identOf, hk] at hc
  · exact plain_lit (h c hc)
  · rcases List.mem_cons.mp hc with rfl | hc
    · decide
    · exact plain_lit (h c hc)

theorem identOf_ne_space {s : GrantSpec}
    (h : ∀ c ∈ s.name, plainChar c = true) :
    ∀ c ∈ identOf s, c ≠ ' ' := by
  intro c hc
  cases hk : s.kind <;> rw [identOf, hk] at hc
  · exact plain_ne (h c hc) (by decide)
  · rcases List.mem_cons.mp hc with rfl | hc
    · decide
    · exact plain_ne (h c hc) (by decide)

/-- Under plain fields, the strict pattern compiles to the literal
characters of the rendered entry body followed by the end anchor. -/
theorem parseTokens_strict {s : GrantSpec} (h : plainSpec s) :
    parseTokens (identOf s ++ ' ' :: (s.host ++ '=' ::
      ('\\' :: '(' :: 'A' :: 'L' :: 'L' :: '\\' :: ')' ::
        ((if s.password_required then [] else " NOPASSWD:".data) ++
          ' ' :: (s.commands ++ ['$']))))) =
      some ((entryBody s).map RTok.lit ++ [RTok.endAnchor]) := by
  obtain ⟨hn, hh, hc, -, -, -⟩ := h
  have e1 : identOf s ++ ' ' :: (s.host ++ '=' ::
      ('\\' :: '(' :: 'A' :: 'L' :: 'L' :: '\\' :: ')' ::
        ((if s.password_required then [] else " NOPASSWD:".data) ++
          ' ' :: (s.commands ++ ['$'])))) =
      (identOf s ++ [' '] ++ s.host ++ ['=']) ++
        ('\\' :: '(' :: 'A' :: 'L' :: 'L' :: '\\' :: ')' ::
          (((if s.password_required then [] else " NOPASSWD:".data) ++
            [' '] ++ s.commands) ++ ['$'])) := by
    simp [List.append_assoc]
  rw [e1]
  have l1 : ∀ c ∈ identOf s ++ [' '] ++ s.host ++ ['='], litChar c = true := by
    intro c hcm
    simp only [List.append_assoc, List.mem_append, List.mem_singleton] at hcm
    rcases hcm with hcm | rfl | hcm | rfl
    · exact identOf_lit hn c hcm
    · decide
    · exact plain_lit (hh c hcm)
    · decide
  have l2 : ∀ c ∈ (if s.password_required then [] else " NOPASSWD:".data) ++
      [' '] ++ s.commands, litChar c = true := by
    intro c hcm
    simp only [List.append_assoc, List.mem_append, List.mem_singleton] at hcm
    rcases hcm with hcm | rfl | hcm
    · cases hp : s.password_required <;> rw [hp] at hcm
      · revert hcm
        have : ∀ c ∈ " NOPASSWD:".data, litChar c = true := by decide
        exact this c
      · simp at hcm
    · decide
    · exact plain_lit (hc c hcm)
  rw [parseTokens_append_lit _ l1, parseTokens_escParens,
    parseTokens_append_lit _ l2]
  have l3 : parseTokens ['$'] = some [RTok.endAnchor] := by decide
  rw [l3, entryBody_eq]
  simp [List.map_append, List.append_assoc]

/-- `re.match` of the strict pattern succeeds exactly on the entry body
(optionally with a trailing newline, which `$` tolerates). -/
theorem reMatch_strict_iff {s : GrantSpec} (h : plainSpec s)
    (line : List Char) :
    (reMatch (get_strict_pattern s) line = true ↔
      (line = entryBody s ∨ line = entryBody s ++ ['\n'])) := by
  rw [reMatch, get_strict_pattern_eq, stripCaret_caret, parseTokens_strict h]
  exact matchToks_lits_end (entryBody s) line

/-- `re.match` of the large pattern succeeds exactly on strings that start
with the rendered identity. -/
theorem reMatch_large_iff {s : GrantSpec}
    (hn : ∀ c ∈ s.name, plainChar c = true) (line : List Char) :
    (reMatch (get_large_pattern s) line = true ↔
      ∃ r, line = identOf s ++ r) := by
  rw [reMatch, get_large_pattern_eq, stripCaret_caret]
  have e1 : parseTokens (identOf s) = some ((identOf s).map RTok.lit) := by
    have e2 : identOf s = identOf s ++ [] := by simp
    rw [e2, parseTokens_append_lit _ (by simpa using identOf_lit hn)]
    simp [parseTokens]
  rw [e1]
  exact matchToks_lits (identOf s) line

/-- Splitting at a separator character absent from either left part is
unambiguous. -/
theorem append_sep_inj {c : Char} : ∀ {xs ys xs' ys' : List Char},
    (∀ d ∈ xs, d ≠ c) → (∀ d ∈ ys, d ≠ c) →
    xs ++ c :: xs' = ys ++ c :: ys' → xs = ys ∧ xs' = ys' := by
  intro xs
  induction xs with
  | nil =>
    intro ys xs' ys' _ hy h
    cases ys with
    | nil => simpa using h
    | cons b ys =>
      rw [List.nil_append, List.cons_append] at h
      obtain ⟨h1, -⟩ := List.cons.inj h
      exact absurd h1.symm (hy b (by simp))
  | cons a xs ih =>
    intro ys xs' ys' hx hy h
    cases ys with
    | nil =>
      rw [List.cons_append, List.nil_append] at h
      obtain ⟨h1, -⟩ := List.cons.inj h
      exact absurd h1 (hx a (by simp))
    | cons b ys =>
      rw [List.cons_append, List.cons_append] at h
      obtain ⟨h1, h2⟩ := List.cons.inj h
      obtain ⟨e1, e2⟩ := ih (fun d hd => hx d (by simp [hd]))
        (fun d hd => hy d (by simp [hd])) h2
      exact ⟨by rw [h1, e1], e2⟩

theorem identOf_inj {A B : GrantSpec}
    (hA : ∀ c ∈ A.name, plainChar c = true)
    (hB : ∀ c ∈ B.name, plainChar c = true)
    (h : identOf A = identOf B) : A.kind = B.kind ∧ A.name = B.name := by
  cases hka : A.kind <;> cases hkb : B.kind <;>
      simp only [identOf, hka, hkb] at h
  · exact ⟨rfl, h⟩
  · exfalso
    have hm : '%' ∈ A.name := by rw [h]; simp
    exact absurd (hA '%' hm) (by decide)
  · exfalso
    have hm : '%' ∈ B.name := by rw [← h]; simp
    exact absurd (hB '%' hm) (by decide)
  · obtain ⟨-, h2⟩ := List.cons.inj h
    exact ⟨rfl, h2⟩

/-- The rendered entry body determines the spec, for plain fields. -/
theorem entryBody_inj {A B : GrantSpec} (hA : plainSpec A) (hB : plainSpec B)
    (h : entryBody A = entryBody B) : A = B := by
  obtain ⟨hAn, hAh, hAc, -, -, -⟩ := hA
  obtain ⟨hBn, hBh, hBc, -, -, -⟩ := hB
  rw [entryBody_eq, entryBody_eq] at h
  obtain ⟨hid, h⟩ := append_sep_inj (identOf_ne_space hAn)
    (identOf_ne_space hBn) h
  obtain ⟨hkind, hname⟩ := identOf_inj hAn hBn hid
  obtain ⟨hhost, h⟩ := append_sep_inj
    (fun d hd => plain_ne (hAh d hd) (by decide))
    (fun d hd => plain_ne (hBh d hd) (by decide)) h
  obtain ⟨-, h⟩ := List.cons.inj h
  obtain ⟨-, h⟩ := List.cons.inj h
  obtain ⟨-, h⟩ := List.cons.inj h
  obtain ⟨-, h⟩ := List.cons.inj h
  have hcmd : A.password_required = B.password_required ∧
      A.commands = B.commands := by
    cases hpa : A.password_required <;> cases hpb : B.password_required <;>
        rw [hpa, hpb] at h <;> simp at h
    · exact ⟨rfl, h⟩
    · exfalso
      have hmem : ':' ∈ B.commands := by rw [← h]; simp
      exact absurd (hBc ':' hmem) (by decide)
    · exfalso
      have hmem : ':' ∈ A.commands := by rw [h]; simp
      exact absurd (hAc ':' hmem) (by decide)
    · exact ⟨rfl, h⟩
  obtain ⟨hpw, hcmds⟩ := hcmd
  obtain ⟨nA, kA, hoA, pA, cA⟩ := A
  obtain ⟨nB, kB, hoB, pB, cB⟩ := B
  dsimp only at hkind hname hhost hpw hcmds
  rw [hkind, hname, hhost, hpw, hcmds]

theorem getLast?_mem' {l : List Char} {a : Char} (h : l.getLast? = some a) :
    a ∈ l := by
  obtain ⟨hne, he⟩ := List.mem_getLast?_eq_getLast h
  rw [he]
  exact List.getLast_mem hne

theorem getLast?_cons_of_ne_nil {l : List Char} (x : Char) (h : l ≠ []) :
    (x :: l).getLast? = l.getLast? := by
  obtain ⟨b, u, rfl⟩ := List.exists_cons_of_ne_nil h
  rw [List.getLast?_cons_cons]

/-- `str.strip()` of a body followed by `'\n'` gives back the body when the
body starts and ends with non-whitespace. -/
theorem strip_append_nl {xs : List Char} (hne : xs ≠ [])
    (hh : ∀ c, xs.head? = some c → isPySpace c = false)
    (hl : ∀ c, xs.getLast? = some c → isPySpace c = false) :
    strip (xs ++ ['\n']) = xs := by
  obtain ⟨a, t, rfl⟩ := List.exists_cons_of_ne_nil hne
  have ha : isPySpace a = false := hh a rfl
  have h1 : ((a :: t) ++ ['\n']).dropWhile isPySpace = a :: (t ++ ['\n']) := by
    rw [List.cons_append, List.dropWhile_cons, ha]
    simp
  rw [strip, h1]
  have h2 : (a :: (t ++ ['\n'])).reverse = '\n' :: (a :: t).reverse := by
    rw [List.reverse_cons, List.reverse_append, List.reverse_cons]
    simp
  rw [h2]
  have h3 : ('\n' :: (a :: t).reverse).dropWhile isPySpace =
      ((a :: t).reverse).dropWhile isPySpace := by
    rw [List.dropWhile_cons]
    simp [isPySpace]
  rw [h3]
  have h4 : ((a :: t).reverse).dropWhile isPySpace = (a :: t).reverse := by
    cases hrev : (a :: t).reverse with
    | nil => simp
    | cons b w =>
      have hb : (a :: t).getLast? = some b := by
        rw [← List.head?_reverse, hrev]
        rfl
      rw [List.dropWhile_cons, hl b hb]
      simp
  rw [h4, List.reverse_reverse]

theorem entryBody_ne_nil (s : GrantSpec) : entryBody s ≠ [] := by
  rw [entryBody_eq]
  intro hc
  obtain ⟨-, h2⟩ := List.append_eq_nil.mp hc
  exact List.cons_ne_nil _ _ h2

theorem entryBody_getLast?_eq (s : GrantSpec) :
    (entryBody s).getLast? = (' ' :: s.commands).getLast? := by
  simp only [entryBody]
  exact List.getLast?_append_of_ne_nil _ (by simp)

theorem entryBody_last_not_space {s : GrantSpec} (h : plainSpec s) :
    ∀ c, (entryBody s).getLast? = some c → isPySpace c = false := by
  obtain ⟨-, -, hcmd, -, -, hcne⟩ := h
  intro c hlast
  rw [entryBody_getLast?_eq, getLast?_cons_of_ne_nil ' ' hcne] at hlast
  exact plain_not_space (hcmd c (getLast?_mem' hlast))

theorem entryBody_head_spec {s : GrantSpec} (h : plainSpec s) :
    ∀ c, (entryBody s).head? = some c →
      isPySpace c = false ∧ c ≠ '#' := by
  obtain ⟨hn, -, -, hne, -, -⟩ := h
  intro c hc
  rw [entryBody_eq] at hc
  cases hk : s.kind <;> simp only [identOf, hk] at hc
  · obtain ⟨a, t, he⟩ := List.exists_cons_of_ne_nil hne
    rw [he, List.cons_append, List.head?_cons] at hc
    obtain rfl : a = c := Option.some.inj hc
    have hmem : a ∈ s.name := by rw [he]; simp
    exact ⟨plain_not_space (hn a hmem), plain_ne (hn a hmem) (by decide)⟩
  · rw [List.cons_append, List.head?_cons] at hc
    obtain rfl := Option.some.inj hc
    exact ⟨by decide, by decide⟩

/-- Stripping the rendered line gives the entry body, for plain specs. -/
theorem strip_renderEntry {s : GrantSpec} (h : plainSpec s) :
    strip (renderEntry s) = entryBody s := by
  rw [renderEntry]
  exact strip_append_nl (entryBody_ne_nil s)
    (fun c hc => (entryBody_head_spec h c hc).1)
    (entryBody_last_not_space h)

theorem entryBody_no_nl {s : GrantSpec} (h : plainSpec s) :
    ∀ c ∈ entryBody s, c ≠ '\n' := by
  obtain ⟨hn, hh, hc, -, -, -⟩ := h
  have hid : ∀ d ∈ identOf s, d ≠ '\n' := by
    intro d hd
    cases hk : s.kind <;> simp only [identOf, hk] at hd
    · exact plain_ne (hn d hd) (by decide)
    · rcases List.mem_cons.mp hd with rfl | hd
      · decide
      · exact plain_ne (hn d hd) (by decide)
  rw [entryBody_eq]
  refine List.forall_mem_append.mpr ⟨hid, ?_⟩
  refine List.forall_mem_cons.mpr ⟨by decide, ?_⟩
  refine List.forall_mem_append.mpr
    ⟨fun d hd => plain_ne (hh d hd) (by decide), ?_⟩
  refine List.forall_mem_cons.mpr ⟨by decide, ?_⟩
  refine List.forall_mem_cons.mpr ⟨by decide, ?_⟩
  refine List.forall_mem_cons.mpr ⟨by decide, ?_⟩
  refine List.forall_mem_cons.mpr ⟨by decide, ?_⟩
  refine List.forall_mem_cons.mpr ⟨by decide, ?_⟩
  refine List.forall_mem_cons.mpr ⟨by decide, ?_⟩
  refine List.forall_mem_append.mpr ⟨?_, ?_⟩
  · cases hp : s.password_required <;> simp only [Bool.false_eq_true,
      if_false, if_true]
    · have hall : ∀ d ∈ " NOPASSWD:".data, d ≠ '\n' := by decide
      exact hall
    · simp
  · refine List.forall_mem_cons.mpr ⟨by decide, ?_⟩
    exact fun d hd => plain_ne (hc d hd) (by decide)

theorem splitAux_cons_nl (acc rest : List Char) :
    splitAux acc ('\n' :: rest) = (acc ++ ['\n']) :: splitAux [] rest := by
  simp [splitAux]

theorem splitAux_cons_other {a : Char} (ha : ¬(a = '\n'))
    (acc rest : List Char) :
    splitAux acc (a :: rest) = splitAux (acc ++ [a]) rest := by
  simp [splitAux, ha]

theorem splitAux_no_nl {body : List Char} (hb : ∀ c ∈ body, c ≠ '\n') :
    ∀ acc, splitAux acc body =
      if acc ++ body = [] then [] else [acc ++ body] := by
  induction body with
  | nil => intro acc; simp [splitAux]
  | cons c rest ih =>
    intro acc
    have hcc : ¬(c = '\n') := hb c (by simp)
    rw [splitAux_cons_other hcc, ih (fun d hd => hb d (by simp [hd]))]
    simp [List.append_assoc]

theorem splitAux_body_nl {body : List Char} (hb : ∀ c ∈ body, c ≠ '\n') :
    ∀ acc, splitAux acc (body ++ ['\n']) = [acc ++ body ++ ['\n']] := by
  induction body with
  | nil => intro acc; simp [splitAux]
  | cons c rest ih =>
    intro acc
    have hcc : ¬(c = '\n') := hb c (by simp)
    rw [List.cons_append, splitAux_cons_other hcc,
      ih (fun d hd => hb d (by simp [hd]))]
    simp [List.append_assoc]

theorem splitAux_eq_nil_iff : ∀ (l acc : List Char),
    (splitAux acc l = [] ↔ acc = [] ∧ l = []) := by
  intro l
  induction l with
  | nil => intro acc; by_cases h : acc = [] <;> simp [splitAux, h]
  | cons c rest ih =>
    intro acc
    by_cases hcc : c = '\n'
    · subst hcc
      rw [splitAux_cons_nl]
      simp
    · rw [splitAux_cons_other hcc, ih]
      simp

theorem flatten_splitAux : ∀ (l acc : List Char),
    (splitAux acc l).flatten = acc ++ l := by
  intro l
  induction l with
  | nil => intro acc; by_cases h : acc = [] <;> simp [splitAux, h]
  | cons c rest ih =>
    intro acc
    by_cases hcc : c = '\n'
    · subst hcc
      rw [splitAux_cons_nl, List.flatten_cons, ih]
      simp
    · rw [splitAux_cons_other hcc, ih]
      simp

/-- `readlines` output concatenates back to the file content. -/
theorem flatten_readlinesContent (c : List Char) :
    (readlinesContent c).flatten = c := by
  rw [readlinesContent, flatten_splitAux]
  simp

theorem splitAux_append_of_last_nl : ∀ (c : List Char),
    c.getLast? = some '\n' → ∀ (acc e : List Char),
      splitAux acc (c ++ e) = splitAux acc c ++ splitAux [] e := by
  intro c
  induction c with
  | nil => intro h; simp at h
  | cons a c ih =>
    intro h acc e
    cases c with
    | nil =>
      rw [List.getLast?_singleton] at h
      obtain rfl := Option.some.inj h
      simp [splitAux]
    | cons b c2 =>
      rw [List.getLast?_cons_cons] at h
      by_cases ha : a = '\n'
      · subst ha
        rw [List.cons_append, splitAux_cons_nl, splitAux_cons_nl, ih h [] e,
          List.cons_append]
      · rw [List.cons_append, splitAux_cons_other ha,
          splitAux_cons_other ha]
        exact ih h (acc ++ [a]) e

/-- Appending at a line boundary splits linewise. -/
theorem readlinesContent_append {c : List Char}
    (h : c = [] ∨ c.getLast? = some '\n') (e : List Char) :
    readlinesContent (c ++ e) = readlinesContent c ++ readlinesContent e := by
  rcases h with rfl | h
  · simp [readlinesContent, splitAux]
  · exact splitAux_append_of_last_nl c h [] e

/-- A rendered entry is a single line. -/
theorem readlinesContent_render {s : GrantSpec} (h : plainSpec s) :
    readlinesContent (renderEntry s) = [renderEntry s] := by
  rw [renderEntry, readlinesContent, splitAux_body_nl (entryBody_no_nl h)]
  simp

theorem getLastD_of_ne_nil {α : Type} {l : List α} (h : l ≠ []) (d d' : α) :
    l.getLastD d = l.getLastD d' := by
  cases l with
  | nil => exact absurd rfl h
  | cons a t => rw [List.getLastD_cons, List.getLastD_cons]

/-- Appending `body ++ ['\n']` to a content whose last line is unterminated
merges `body` into that last line. -/
theorem splitAux_merge {body : List Char} (hb : ∀ ch ∈ body, ch ≠ '\n') :
    ∀ (c : List Char), c ≠ [] → c.getLast? ≠ some '\n' → ∀ acc,
      splitAux acc (c ++ (body ++ ['\n'])) =
        (splitAux acc c).dropLast ++
          [(splitAux acc c).getLastD [] ++ (body ++ ['\n'])] := by
  intro c
  induction c with
  | nil => intro hne; exact absurd rfl hne
  | cons a c ih =>
    intro _ hlast acc
    cases c with
    | nil =>
      have ha : ¬(a = '\n') := by
        rw [List.getLast?_singleton] at hlast
        intro hcc
        exact hlast (by rw [hcc])
      rw [List.cons_append, List.nil_append, splitAux_cons_other ha,
        splitAux_body_nl hb, splitAux_cons_other ha]
      simp [splitAux, List.append_assoc]
    | cons b c2 =>
      rw [List.getLast?_cons_cons] at hlast
      have hcne : splitAux [] (b :: c2) ≠ [] := by
        rw [ne_eq, splitAux_eq_nil_iff]
        simp
      by_cases ha : a = '\n'
      · subst ha
        rw [List.cons_append, splitAux_cons_nl, splitAux_cons_nl,
          ih (by simp) hlast []]
        rw [List.dropLast_cons_of_ne_nil hcne, List.getLastD_cons,
          getLastD_of_ne_nil hcne (acc ++ ['\n']) [], List.cons_append]
      · rw [List.cons_append, splitAux_cons_other ha, splitAux_cons_other ha]
        exact ih (by simp) hlast (acc ++ [a])

/-- Principals used in the concrete witnesses and counterexamples. -/
def johnUser : GrantSpec :=
  { name := "john".data, kind := Kind.user, host := "ALL".data,
    password_required := true, commands := "ALL".data }

def johnDot : GrantSpec :=
  { name := "john".data, kind := Kind.user, host := "ALL".data,
    password_required := true, commands := "AL.".data }

def johnnyUser : GrantSpec :=
  { name := "johnny".data, kind := Kind.user, host := "ALL".data,
    password_required := true, commands := "ALL".data }

/-- C1 counterexample: the spec with commands `AL.` is distinct from the
spec with commands `ALL`, yet its strict pattern matches the latter's
rendered line — the fields are interpolated into the regex unescaped, so
`.` matches any character. -/
theorem c1_counterexample :
    johnDot ≠ johnUser ∧
    reMatch (get_strict_pattern johnDot) (strip (renderEntry johnUser)) =
      true := by
  constructor
  · decide
  · decide

/-- C1 (amended): for specs whose name, host and commands are nonempty and
consist of regex-safe plain characters (alphanumerics, `_`, `-`, `/`), the
strict pattern matches the stripped rendered line of a spec exactly when
the two specs are equal. -/
theorem c1_strict_pattern_exact (A B : GrantSpec) (hA : plainSpec A)
    (hB : plainSpec B) :
    (reMatch (get_strict_pattern A) (strip (renderEntry B)) = true ↔
      A = B) := by
  rw [strip_renderEntry hB, reMatch_strict_iff hA]
  constructor
  · rintro (h | h)
    · exact (entryBody_inj hB hA h).symm
    · exfalso
      have hm : '\n' ∈ entryBody B := by rw [h]; simp
      exact entryBody_no_nl hB '\n' hm rfl
  · rintro rfl
    exact Or.inl rfl

/-- C1 witness: the amended theorem applied to concrete specs. -/
theorem c1_witness :
    reMatch (get_strict_pattern johnUser) (strip (renderEntry johnUser)) =
      true ∧
    ¬(reMatch (get_strict_pattern johnUser) (strip (renderEntry johnnyUser)) =
      true) := by
  constructor
  · exact (c1_strict_pattern_exact johnUser johnUser (by decide)
      (by decide)).mpr rfl
  · intro h
    exact absurd ((c1_strict_pattern_exact johnUser johnnyUser (by decide)
      (by decide)).mp h) (by decide)

/-- A strict match is in particular a large match (the strict line starts
with the identity). -/
theorem reMatch_strict_implies_large {s : GrantSpec} (h : plainSpec s)
    {st : List Char} (hm : reMatch (get_strict_pattern s) st = true) :
    reMatch (get_large_pattern s) st = true := by
  rw [reMatch_strict_iff h] at hm
  rw [reMatch_large_iff h.1]
  rcases hm with rfl | rfl
  · exact ⟨_, entryBody_eq s⟩
  · refine ⟨(' ' :: (s.host ++ '=' :: ('(' :: 'A' :: 'L' :: 'L' :: ')' ::
      ((if s.password_required then [] else " NOPASSWD:".data) ++
        ' ' :: s.commands)))) ++ ['\n'], ?_⟩
    rw [entryBody_eq s, List.append_assoc]

theorem reMatch_large_entryBody {s : GrantSpec} (h : plainSpec s) :
    reMatch (get_large_pattern s) (entryBody s) = true := by
  rw [reMatch_large_iff h.1]
  exact ⟨_, entryBody_eq s⟩

theorem classifyStep_no_match {s : GrantSpec} (hs : plainSpec s)
    {line : List Char} {acc : Bool × Bool}
    (hno : reMatch (get_large_pattern s) (strip line) = false) :
    classifyStep s acc line = acc := by
  rw [classifyStep]
  by_cases hc : (strip line).head? = some '#'
  · simp [hc]
  · have hstrict : reMatch (get_strict_pattern s) (strip line) = false := by
      cases hst : reMatch (get_strict_pattern s) (strip line)
      · rfl
      · rw [reMatch_strict_implies_large hs hst] at hno
        exact absurd hno (by simp)
    simp [hc, hstrict, hno]

theorem foldl_classifyStep_const {s : GrantSpec} (hs : plainSpec s) :
    ∀ {lines : List (List Char)},
      (∀ l ∈ lines, reMatch (get_large_pattern s) (strip l) = false) →
      ∀ acc, lines.foldl (classifyStep s) acc = acc := by
  intro lines
  induction lines with
  | nil => intro _ acc; rfl
  | cons l ls ih =>
    intro hno acc
    rw [List.foldl_cons, classifyStep_no_match hs (hno l (by simp))]
    exact ih (fun x hx => hno x (by simp [hx])) acc

/-- Classification reports `(False, False)` when no line matches the large
pattern (a strict match would imply a large one). -/
theorem classifyLines_of_no_match {s : GrantSpec} (hs : plainSpec s)
    {lines : List (List Char)}
    (hno : ∀ l ∈ lines, reMatch (get_large_pattern s) (strip l) = false) :
    classifyLines s lines = (false, false) :=
  foldl_classifyStep_const hs hno (false, false)

/-- Classification of non-matching lines followed by the spec's own
rendered line reports `(True, True)`. -/
theorem classifyLines_append_entry {s : GrantSpec} (hs : plainSpec s)
    {lines : List (List Char)}
    (hno : ∀ l ∈ lines, reMatch (get_large_pattern s) (strip l) = false) :
    classifyLines s (lines ++ [renderEntry s]) = (true, true) := by
  rw [classifyLines, List.foldl_append, foldl_classifyStep_const hs hno]
  have hhash : ¬((strip (renderEntry s)).head? = some '#') := by
    rw [strip_renderEntry hs]
    intro hc
    exact (entryBody_head_spec hs '#' hc).2 rfl
  have hstrict : reMatch (get_strict_pattern s) (strip (renderEntry s)) =
      true := by
    rw [strip_renderEntry hs, reMatch_strict_iff hs]
    exact Or.inl rfl
  simp [classifyStep, hhash, hstrict]

theorem is_listed_ok_tmp {s : GrantSpec} {cfg : Bool} {fs fs' : FS}
    {r : Bool × Bool} (h : is_listed s cfg fs = Except.ok (r, fs')) :
    fs'.tmp = fs.tmp := by
  cases cfg
  · rw [is_listed] at h
    simp only [Bool.false_eq_true, if_false] at h
    cases hr : readlines fs <;> rw [hr] at h
    · exact absurd h (by simp)
    · simp only [Except.ok.injEq, Prod.mk.injEq] at h
      rw [← h.2]
  · rw [is_listed] at h
    simp only [if_true] at h
    cases ht : fs.tmp <;> rw [ht] at h <;>
        simp only [Option.isSome_none, Option.isSome_some,
          Bool.false_eq_true, if_false, if_true] at h
    · cases hr : readlines (create_cfg_file fs) <;> rw [hr] at h
      · exact absurd h (by simp)
      · simp only [Except.ok.injEq, Prod.mk.injEq] at h
        rw [← h.2, create_cfg_file, ht]
    · exact absurd h (by simp)

theorem is_listed_nocfg {s : GrantSpec} {fs : FS} {c : List Char}
    (h : fs.live = some c) :
    is_listed s false fs =
      Except.ok (classifyLines s (readlinesContent c), fs) := by
  rw [is_listed]
  simp [readlines, h]

/-- Whether `needle` occurs contiguously anywhere inside `hay`. -/
def occursIn (needle : List Char) : List Char → Bool
  | [] => needle.isEmpty
  | c :: t => needle.isPrefixOf (c :: t) || occursIn needle t

/-- Shared computation: the replace branch under a failing validator stages
`remove_user` then `add_user`, `commit` raises the fixed syntax error,
`rollback` removes the staged artifact, and the live file keeps the
content it had when the transaction began. -/
theorem mainRun_replace_fail_aux (s : GrantSpec) (cfg : Bool)
    (valid : List Char → Bool) (fs0 fs1 : FS) (c : List Char)
    (hl : is_listed s cfg fs0 = Except.ok ((true, false), fs1))
    (htmp : fs0.tmp = none) (hlive : fs1.live = some c)
    (hv : valid (stagedReplace s c) = false) :
    mainRun s cfg true valid fs0 =
      (Outcome.failJson (commitFailedPre ++ invalidSyntaxMsg),
        { live := some c, tmp := none }) := by
  have htmp1 : fs1.tmp = none := by rw [is_listed_ok_tmp hl, htmp]
  rw [mainRun, hl]
  obtain ⟨l1, t1⟩ := fs1
  obtain rfl : l1 = some c := hlive
  obtain rfl : t1 = none := htmp1
  rw [stagedReplace] at hv
  simp [transact, lock, seqOps, remove_user, add_user, commit, rollback,
    errStr, hv]

/-- C2: in a replace transaction (entry present but not exact, desired
state present) whose validator rejects the staged content, the live file
after `main` is byte-identical to its content when the transaction began
and the staged artifact is gone. -/
theorem c2_validator_failure_restores (s : GrantSpec) (cfg : Bool)
    (valid : List Char → Bool) (fs0 fs1 : FS) (c : List Char)
    (hl : is_listed s cfg fs0 = Except.ok ((true, false), fs1))
    (htmp : fs0.tmp = none) (hlive : fs1.live = some c)
    (hv : valid (stagedReplace s c) = false) :
    mainRun s cfg true valid fs0 =
      (Outcome.failJson (commitFailedPre ++ invalidSyntaxMsg),
        { live := some c, tmp := none }) :=
  mainRun_replace_fail_aux s cfg valid fs0 fs1 c hl htmp hlive hv

/-- C2 witness: a concrete replace transaction with an always-failing
validator leaves the live file untouched and no staged artifact. -/
theorem c2_witness :
    mainRun johnUser false true (fun _ => false)
      { live := some "john X=(ALL) ALL\n".data, tmp := none } =
      (Outcome.failJson (commitFailedPre ++ invalidSyntaxMsg),
        { live := some "john X=(ALL) ALL\n".data, tmp := none }) :=
  c2_validator_failure_restores johnUser false (fun _ => false)
    { live := some "john X=(ALL) ALL\n".data, tmp := none }
    { live := some "john X=(ALL) ALL\n".data, tmp := none }
    "john X=(ALL) ALL\n".data (by decide) rfl rfl rfl

/-- Shared computation: in every transaction branch of `main` (remove,
replace, or add), when the validator rejects the staged content, `commit`
raises the constant syntax error, `rollback` removes the staged artifact,
and `main` surfaces the fixed commit-failure message. -/
theorem mainRun_validator_fails_aux (s : GrantSpec) (cfg : Bool)
    (valid : List Char → Bool) (fs0 fs1 : FS) (c : List Char)
    (listed exactly statePresent : Bool)
    (hl : is_listed s cfg fs0 = Except.ok ((listed, exactly), fs1))
    (hneed : needsTransaction listed exactly statePresent = true)
    (htmp : fs0.tmp = none) (hlive : fs1.live = some c)
    (hv : valid (stagedFor s listed exactly statePresent c) = false) :
    mainRun s cfg statePresent valid fs0 =
      (Outcome.failJson (commitFailedPre ++ invalidSyntaxMsg),
        { live := some c, tmp := none }) := by
  have htmp1 : fs1.tmp = none := by rw [is_listed_ok_tmp hl, htmp]
  rw [mainRun, hl]
  obtain ⟨l1, t1⟩ := fs1
  obtain rfl : l1 = some c := hlive
  obtain rfl : t1 = none := htmp1
  cases listed <;> cases exactly <;> cases statePresent <;>
    simp_all [needsTransaction, stagedFor, stagedReplace, transact, lock,
      seqOps, remove_user, add_user, commit, rollback, errStr]

/-- C8 counterexample: the validator's diagnostic text does not occur in
the surfaced message — `os.system` exposes only the exit status, and
`commit` raises the constant text `invalid syntax detected`. -/
theorem c8_counterexample :
    (mainRunWithDiag johnUser false true
        (fun _ => (false, "syntax error near line 3".data))
        { live := some "john X=(ALL) ALL\n".data, tmp := none }).1 =
      Outcome.failJson (commitFailedPre ++ invalidSyntaxMsg) ∧
    occursIn "syntax error near line 3".data
      (commitFailedPre ++ invalidSyntaxMsg) = false := by
  constructor
  · decide
  · decide

/-- C8 (amended): whenever `main` starts a transaction — the remove,
replace, or add branch — and the validator rejects the staged content, the
surfaced message is the fixed text `commit failed: invalid syntax
detected`, whatever diagnostic the validator produced (the diagnostic is
not captured). -/
theorem c8_validator_message_fixed (s : GrantSpec) (cfg : Bool)
    (validator : List Char → Bool × List Char) (fs0 fs1 : FS) (c : List Char)
    (listed exactly statePresent : Bool)
    (hl : is_listed s cfg fs0 = Except.ok ((listed, exactly), fs1))
    (hneed : needsTransaction listed exactly statePresent = true)
    (htmp : fs0.tmp = none) (hlive : fs1.live = some c)
    (hv : (validator (stagedFor s listed exactly statePresent c)).1 =
      false) :
    (mainRunWithDiag s cfg statePresent validator fs0).1 =
      Outcome.failJson (commitFailedPre ++ invalidSyntaxMsg) := by
  rw [mainRunWithDiag, mainRun_validator_fails_aux s cfg _ fs0 fs1 c listed
    exactly statePresent hl hneed htmp hlive hv]

/-- C8 witness: a removal transaction (the branch at
src/system/sudoers.py:288-294) with a rejecting validator surfaces the
fixed message. -/
theorem c8_witness :
    (mainRunWithDiag johnUser false false
        (fun _ => (false, "parse error".data))
        { live := some "john ALL=(ALL) ALL\n".data, tmp := none }).1 =
      Outcome.failJson (commitFailedPre ++ invalidSyntaxMsg) :=
  c8_validator_message_fixed johnUser false
    (fun _ => (false, "parse error".data))
    { live := some "john ALL=(ALL) ALL\n".data, tmp := none }
    { live := some "john ALL=(ALL) ALL\n".data, tmp := none }
    "john ALL=(ALL) ALL\n".data true true false (by decide) (by decide)
    rfl rfl rfl

/-- C4 counterexample: with a fragment file selected (`cfg_file` set) and
the live fragment missing, classification silently creates an empty file
and reports no entries instead of surfacing a read error, and `main`
proceeds to a successful add transaction. -/
theorem c4_counterexample :
    is_listed johnUser true { live := none, tmp := none } =
      Except.ok ((false, false), { live := some [], tmp := none }) ∧
    (mainRun johnUser true true (fun _ => true)
      { live := none, tmp := none }).1 = Outcome.exitJson true := by
  constructor
  · decide
  · decide

/-- C4 (amended): when no fragment file is selected, a live file that
cannot be opened for reading makes `main` fail with the surfaced read
error; it is never treated as an empty file. -/
theorem c4_unreadable_surfaced (s : GrantSpec) (statePresent : Bool)
    (valid : List Char → Bool) (t : Option (List Char)) :
    mainRun s false statePresent valid { live := none, tmp := t } =
      (Outcome.failJson (sudoersMissingPre ++ openReadFailMsg),
        { live := none, tmp := t }) := by
  rw [mainRun]
  have h : is_listed s false { live := none, tmp := t } =
      Except.error (Err.io openReadFailMsg) := by
    rw [is_listed]
    simp [readlines]
  rw [h]
  rfl

/-- C5: when the staged artifact already exists at invocation start and the
decision table would start a transaction, `main` fails with the lock-held
message and mutates nothing. -/
theorem c5_lock_held_no_mutation (s : GrantSpec) (cfg statePresent : Bool)
    (valid : List Char → Bool) (fs : FS) (t : List Char)
    (listed exactly : Bool) (fs1 : FS)
    (hl : is_listed s cfg fs = Except.ok ((listed, exactly), fs1))
    (htmp : fs.tmp = some t)
    (hneed : needsTransaction listed exactly statePresent = true) :
    mainRun s cfg statePresent valid fs =
      (Outcome.failJson lockedByMsg, fs) := by
  cases cfg
  · cases hlive : fs.live with
    | none =>
      rw [is_listed] at hl
      simp [readlines, hlive] at hl
    | some c =>
      have h2 := (is_listed_nocfg (s := s) hlive).symm.trans hl
      obtain ⟨-, hfs⟩ := Prod.mk.inj (Except.ok.inj h2)
      obtain rfl := hfs
      have hlock : lock fs = Except.error (Err.io []) := by
        rw [lock]
        simp [htmp]
      rw [mainRun, hl]
      cases listed <;> cases exactly <;> cases statePresent <;>
        simp_all [transact, needsTransaction]
  · rw [is_listed] at hl
    simp [htmp] at hl

/-- C5 witness: a present staged artifact blocks a concrete removal
transaction without touching the file system. -/
theorem c5_witness :
    mainRun johnUser false false (fun _ => true)
      { live := some "john ALL=(ALL) ALL\n".data, tmp := some "z".data } =
      (Outcome.failJson lockedByMsg,
        { live := some "john ALL=(ALL) ALL\n".data, tmp := some "z".data }) :=
  c5_lock_held_no_mutation johnUser false false (fun _ => true)
    { live := some "john ALL=(ALL) ALL\n".data, tmp := some "z".data }
    "z".data true true
    { live := some "john ALL=(ALL) ALL\n".data, tmp := some "z".data }
    (by decide) rfl (by decide)

/-- C7 counterexample: `rollback` with the staged artifact already absent
raises (`os.remove` on a missing path) instead of succeeding — the
operation is not idempotent. -/
theorem c7_counterexample :
    rollback { live := some "x".data, tmp := none } =
      Except.error (Err.io removeFailMsg) := by
  decide

/-- C7 (amended): `rollback` removes the staged artifact when it exists;
when it is already absent, `os.remove` raises an `OSError`. -/
theorem c7_rollback_removes_staged (fs : FS) (t : List Char)
    (h : fs.tmp = some t) :
    rollback fs = Except.ok { fs with tmp := none } := by
  simp [rollback, h]

/-- C7 witness. -/
theorem c7_witness :
    rollback { live := some "x".data, tmp := some "y".data } =
      Except.ok { live := some "x".data, tmp := none } :=
  c7_rollback_removes_staged
    { live := some "x".data, tmp := some "y".data } "y".data rfl

/-- C3: with a fragment file selected, mere classification truncates the
live fragment to empty — `is_listed` calls `create_cfg_file` (which opens
the live path for writing) whenever the staged artifact is absent, because
line 180 tests the staged path instead of the fragment path.  The live
file is thus mutated outside the promotion step. -/
theorem c3_classification_truncates_fragment :
    is_listed johnUser true
        { live := some "john ALL=(ALL) ALL\n".data, tmp := none } =
      Except.ok ((false, false), { live := some [], tmp := none }) ∧
    "john ALL=(ALL) ALL\n".data ≠ ([] : List Char) := by
  constructor
  · decide
  · decide

/-- C6 counterexample: the live file holds only johnny's entry; an add
transaction for john followed by a remove transaction for john wipes the
file — johnny's line is not preserved, because the large pattern `^john`
matches it. -/
theorem c6_counterexample :
    (transact (fun _ => true) [remove_user johnUser]
        (transact (fun _ => true) [add_user johnUser]
          { live := some "johnny ALL=(ALL) ALL\n".data, tmp := none }).2).2.live
      = some [] ∧
    some ([] : List Char) ≠ some "johnny ALL=(ALL) ALL\n".data := by
  constructor
  · decide
  · decide

/-- C6 (amended): for a plain spec and a live file that ends at a line
boundary and contains no line matching the spec's large pattern, an add
transaction followed by a remove transaction restores the live file to its
exact pre-add bytes (only the added line's slot disappears) and leaves no
staged artifact. -/
theorem c6_add_remove_roundtrip (s : GrantSpec) (c : List Char)
    (hs : plainSpec s) (hend : c = [] ∨ c.getLast? = some '\n')
    (hno : ∀ l ∈ readlinesContent c,
      reMatch (get_large_pattern s) (strip l) = false) :
    (transact (fun _ => true) [add_user s]
        { live := some c, tmp := none }).1 = Outcome.exitJson true ∧
    transact (fun _ => true) [remove_user s]
        (transact (fun _ => true) [add_user s]
          { live := some c, tmp := none }).2 =
      (Outcome.exitJson true, { live := some c, tmp := none }) := by
  have h1 : transact (fun _ => true) [add_user s]
      { live := some c, tmp := none } =
      (Outcome.exitJson true,
        { live := some (c ++ renderEntry s), tmp := none }) := by
    simp [transact, lock, seqOps, add_user, commit]
  have hfilter : (readlinesContent (c ++ renderEntry s)).filter
      (fun line => !reMatch (get_large_pattern s) (strip line)) =
      readlinesContent c := by
    rw [readlinesContent_append hend, readlinesContent_render hs,
      List.filter_append]
    have hmatch : reMatch (get_large_pattern s) (strip (renderEntry s)) =
        true := by
      rw [strip_renderEntry hs]
      exact reMatch_large_entryBody hs
    have hkeep : (readlinesContent c).filter
        (fun line => !reMatch (get_large_pattern s) (strip line)) =
        readlinesContent c :=
      List.filter_eq_self.mpr (fun l hl => by rw [hno l hl]; rfl)
    rw [hkeep]
    simp [hmatch]
  have h2 : transact (fun _ => true) [remove_user s]
      { live := some (c ++ renderEntry s), tmp := none } =
      (Outcome.exitJson true, { live := some c, tmp := none }) := by
    simp [transact, lock, seqOps, remove_user, commit, hfilter,
      flatten_readlinesContent]
  rw [h1]
  exact ⟨rfl, h2⟩

/-- C6 witness: a concrete roundtrip over a file holding an unrelated
entry. -/
theorem c6_witness :
    (transact (fun _ => true) [add_user johnUser]
        { live := some "root ALL=(ALL) ALL\n".data, tmp := none }).1 =
      Outcome.exitJson true ∧
    transact (fun _ => true) [remove_user johnUser]
        (transact (fun _ => true) [add_user johnUser]
          { live := some "root ALL=(ALL) ALL\n".data, tmp := none }).2 =
      (Outcome.exitJson true,
        { live := some "root ALL=(ALL) ALL\n".data, tmp := none }) :=
  c6_add_remove_roundtrip johnUser "root ALL=(ALL) ALL\n".data (by decide)
    (by decide) (by decide)

/-- C9: broad matching is prefix-based with no word-boundary check: for two
principals of the same kind where one name is a proper prefix of the
other, classification for the shorter name reports `listed = True` on a
file holding only the longer name's entry, and `remove_user` for the
shorter name deletes the longer name's line. -/
theorem c9_prefix_collision (s1 s2 : GrantSpec) (ext : List Char)
    (hk : s1.kind = s2.kind) (hn1p : ∀ c ∈ s1.name, plainChar c = true)
    (hs2 : plainSpec s2) (hext : s2.name = s1.name ++ ext)
    (hextne : ext ≠ []) :
    (classifyLines s1 (readlinesContent (renderEntry s2))).1 = true ∧
    remove_user s1 { live := some (renderEntry s2), tmp := none } =
      Except.ok { live := some (renderEntry s2), tmp := some [] } := by
  have hlines : readlinesContent (renderEntry s2) = [renderEntry s2] :=
    readlinesContent_render hs2
  have hstrip : strip (renderEntry s2) = entryBody s2 := strip_renderEntry hs2
  have hident : identOf s2 = identOf s1 ++ ext := by
    cases hk2 : s2.kind
    · have hk1 : s1.kind = Kind.user := by rw [hk, hk2]
      simp [identOf, hk1, hk2, hext]
    · have hk1 : s1.kind = Kind.group := by rw [hk, hk2]
      simp [identOf, hk1, hk2, hext]
  have hlarge : reMatch (get_large_pattern s1) (entryBody s2) = true := by
    rw [reMatch_large_iff hn1p]
    refine ⟨ext ++ (' ' :: (s2.host ++ '=' :: ('(' :: 'A' :: 'L' :: 'L' ::
      ')' :: ((if s2.password_required then [] else " NOPASSWD:".data) ++
        ' ' :: s2.commands)))), ?_⟩
    rw [entryBody_eq, hident, List.append_assoc]
  have hhash : ¬((strip (renderEntry s2)).head? = some '#') := by
    rw [hstrip]
    intro hc
    exact (entryBody_head_spec hs2 '#' hc).2 rfl
  have hhash2 : ¬((entryBody s2).head? = some '#') := by
    rw [← hstrip]
    exact hhash
  constructor
  · rw [hlines, classifyLines, List.foldl_cons, List.foldl_nil]
    simp only [classifyStep, hstrip, hlarge]
    simp only [hhash2, if_false]
    cases reMatch (get_strict_pattern s1) (entryBody s2) <;> simp
  · simp only [remove_user]
    rw [hlines]
    simp [hstrip, hlarge]

/-- C9 witness: user `john` against a file holding only `johnny`'s entry. -/
theorem c9_witness :
    (classifyLines johnUser
      (readlinesContent (renderEntry johnnyUser))).1 = true ∧
    remove_user johnUser { live := some (renderEntry johnnyUser), tmp := none } =
      Except.ok { live := some (renderEntry johnnyUser), tmp := some [] } :=
  c9_prefix_collision johnUser johnnyUser "ny".data rfl (by decide)
    (by decide) (by decide) (by decide)

/-- C10: appending to a staged file whose content does not end in a line
terminator concatenates the rendered entry onto the old last line: after
`add_user` the staged content is the old content directly followed by the
entry, and its lines are the old lines with the last one merged with the
entry. -/
theorem c10_append_merges_last_line (s : GrantSpec) (fs : FS)
    (t : List Char) (htmp : fs.tmp = some t) (hne : t ≠ [])
    (hlast : t.getLast? ≠ some '\n')
    (hnl : ∀ ch ∈ entryBody s, ch ≠ '\n') :
    add_user s fs = Except.ok { fs with tmp := some (t ++ renderEntry s) } ∧
    readlinesContent (t ++ renderEntry s) =
      (readlinesContent t).dropLast ++
        [(readlinesContent t).getLastD [] ++ renderEntry s] := by
  constructor
  · simp [add_user, htmp]
  · rw [renderEntry, readlinesContent, readlinesContent,
      splitAux_merge hnl t hne hlast []]

/-- C10 witness. -/
theorem c10_witness :
    add_user johnUser { live := none, tmp := some "Defaults env_reset".data } =
      Except.ok
        { live := none,
          tmp := some ("Defaults env_reset".data ++ renderEntry johnUser) } ∧
    readlinesContent ("Defaults env_reset".data ++ renderEntry johnUser) =
      (readlinesContent "Defaults env_reset".data).dropLast ++
        [(readlinesContent "Defaults env_reset".data).getLastD [] ++
          renderEntry johnUser] :=
  c10_append_merges_last_line johnUser
    { live := none, tmp := some "Defaults env_reset".data }
    "Defaults env_reset".data rfl (by decide) (by decide) (by decide)

end SudoersMod
